import Mathlib

/-!
Verification development for the flaky-test pattern detector
(`scripts/detect-flaky.ts` and the CLI entry point `scripts/index.ts`).

File contents are modelled as `List Char` (JavaScript string indices are
UTF-16 code units; for the code points occurring in test sources the two
coincide position by position).  File paths are modelled as lists of path
segments; `path.join` concatenates segments with a separator, the model
keeps the segments.

The thirteen catalog regexes use quantifiers only over single-character
classes, so a backtracking matcher that enumerates repetition counts
longest-first reproduces JavaScript regex semantics (leftmost match,
greedy quantifiers, left-biased alternation) exactly.
-/

namespace FlakyDetect

abbrev Content := List Char

/-- JavaScript `\s` (the whitespace characters occurring in test sources). -/
def wsJS (c : Char) : Bool :=
  c = ' ' || c = '\t' || c = '\n' || c = '\r' || c = '\x0b' || c = '\x0c' || c = '\u00A0'

/-- JavaScript `\d`. -/
def digitJS (c : Char) : Bool :=
  '0' ≤ c && c ≤ '9'

/-- JavaScript `\w` (`[A-Za-z0-9_]`), used by the `\b` word-boundary assertion. -/
def wordJS (c : Char) : Bool :=
  ('a' ≤ c && c ≤ 'z') || ('A' ≤ c && c ≤ 'Z') || digitJS c || c = '_'

/-- Regular-expression abstract syntax covering the constructs used by the
catalog: literals, character classes, concatenation, alternation, greedy
quantifiers over character classes, option, and the word boundary `\b`.
Capture groups do not change `match[0]` and are dropped. -/
inductive Rx where
  | eps
  | cls (f : Char → Bool)
  | seq (a b : Rx)
  | alt (a b : Rx)
  | star (f : Char → Bool)
  | plus (f : Char → Bool)
  | rep (f : Char → Bool) (lo hi : Nat)
  | opt (a : Rx)
  | wordB

/-- Matcher state: the previously consumed character (needed by `\b`) and
the remaining input. -/
abbrev MState := Option Char × Content

/-- All ways a greedy class repetition can consume a prefix of the input,
longest first, paired with the number of characters consumed. -/
def starStatesCnt (f : Char → Bool) : Option Char → Content → List (Nat × MState)
  | p, [] => [(0, (p, []))]
  | p, c :: cs =>
      if f c then
        (starStatesCnt f (some c) cs).map (fun kst => (kst.1 + 1, kst.2)) ++ [(0, (p, c :: cs))]
      else
        [(0, (p, c :: cs))]

/-- Backtracking matcher: the list of all states reachable by matching `rx`
from the given state, in JavaScript backtracking priority order (the head is
the state the JavaScript engine commits to). -/
def mrun : Rx → MState → List MState
  | .eps, st => [st]
  | .cls f, (_, s) =>
      match s with
      | [] => []
      | c :: cs => if f c then [(some c, cs)] else []
  | .seq a b, st => (mrun a st).flatMap (mrun b)
  | .alt a b, st => mrun a st ++ mrun b st
  | .star f, (p, s) => (starStatesCnt f p s).map (fun kst => kst.2)
  | .plus f, (p, s) =>
      ((starStatesCnt f p s).filter (fun kst => kst.1 != 0)).map (fun kst => kst.2)
  | .rep f lo hi, (p, s) =>
      ((starStatesCnt f p s).filter (fun kst => lo ≤ kst.1 && kst.1 ≤ hi)).map (fun kst => kst.2)
  | .opt a, st => mrun a st ++ [st]
  | .wordB, (p, s) =>
      let lw := match p with | none => false | some c => wordJS c
      let rw := match s with | [] => false | c :: _ => wordJS c
      if lw != rw then [(p, s)] else []

/-- Length of the match of `rx` at the current position (`p` is the character
just before the position), if any: the first result in backtracking order. -/
def matchLen (rx : Rx) (p : Option Char) (s : Content) : Option Nat :=
  (mrun rx (p, s)).head?.map (fun st => s.length - st.2.length)

/-- Scan forward for the leftmost position (≥ `i`) admitting a match;
returns the match position and length. -/
def searchFrom (rx : Rx) (p : Option Char) (s : Content) (i : Nat) : Option (Nat × Nat) :=
  match matchLen rx p s with
  | some len => some (i, len)
  | none =>
      match s with
      | [] => none
      | c :: cs => searchFrom rx (some c) cs (i + 1)

/-- The character preceding position `i` of `content`. -/
def prevAt (content : Content) (i : Nat) : Option Char :=
  if i = 0 then none else content.drop (i - 1) |>.head?

/-- One step of `RegExp.prototype.exec` on a `/g` regex with `lastIndex = li`:
the leftmost match starting at or after `li`. -/
def execFrom (rx : Rx) (content : Content) (li : Nat) : Option (Nat × Nat) :=
  if li > content.length then none
  else searchFrom rx (prevAt content li) (content.drop li) li

/-- The `while ((match = regex.exec(content)) !== null)` loop, collecting
`(match.index, match[0])` pairs; after each match `lastIndex` advances to
`match.index + match[0].length`.  The loop consumes fuel; one unit per
iteration.  A zero-length match stops the model (JavaScript would loop
forever there; the catalog regexes never match the empty string, see the
termination theorem). -/
def execLoopFuel (rx : Rx) (content : Content) : Nat → Nat → List (Nat × Content)
  | 0, _ => []
  | fuel + 1, li =>
      match execFrom rx content li with
      | none => []
      | some (idx, len) =>
          if len = 0 then []
          else (idx, (content.drop idx).take len) :: execLoopFuel rx content fuel (idx + len)

/-- All matches of a `/g` regex over `content` starting from `lastIndex = li`.
`content.length + 1` units of fuel suffice: every iteration strictly
increases `lastIndex`, which stays at most `content.length`. -/
def execLoop (rx : Rx) (content : Content) (li : Nat) : List (Nat × Content) :=
  execLoopFuel rx content (content.length + 1) li

/-- Does `rx` match anywhere in `s` (JavaScript `regex.test(s)`)? -/
def rxTest (rx : Rx) (s : Content) : Bool :=
  (searchFrom rx none s 0).isSome

/-- A single-character literal. -/
def rxChar (c : Char) : Rx :=
  .cls (fun x => x == c)

/-- A literal string. -/
def rxStr (s : String) : Rx :=
  (s.toList.map rxChar).foldr Rx.seq .eps

/-- A case-insensitive literal string (ASCII folding, as in a `/i` regex). -/
def rxStrCI (s : String) : Rx :=
  (s.toList.map (fun c => Rx.cls (fun x => x.toLower == c.toLower))).foldr Rx.seq .eps

/-- Concatenation of a list of regex fragments. -/
def rxCat (l : List Rx) : Rx :=
  l.foldr Rx.seq .eps

/-- `"high" | "medium" | "low"`. -/
inductive Severity where
  | high
  | medium
  | low
deriving DecidableEq, Repr

/-- The string carried by a severity value in the TypeScript union type. -/
def severityToString : Severity → String
  | .high => "high"
  | .medium => "medium"
  | .low => "low"

/-- `FlakyPattern` record: name, compiled regex, severity, risk text, fix text. -/
structure FlakyPattern where
  name : String
  regex : Rx
  severity : Severity
  risk : String
  fix : String

/-- `[=:]` -/
def eqColon (c : Char) : Bool := c == '=' || c == ':'

/-- `['\x60"]` (single quote, backtick, double quote). -/
def quoteChar (c : Char) : Bool := c == Char.ofNat 39 || c == Char.ofNat 96 || c == '"'

/-- `/ttl[Ss]?econds?\s*[=:]\s*1\b/g` -/
def patTtl : FlakyPattern :=
  { name := "1-second TTL"
    regex := rxCat [rxStr "ttl", .opt (.cls (fun c => c == 'S' || c == 's')), rxStr "econd",
      .opt (rxChar 's'), .star wsJS, .cls eqColon, .star wsJS, rxChar '1', .wordB]
    severity := .high
    risk := "1-second TTL causes second-boundary race conditions. Tests may pass or fail depending on when they cross the second boundary."
    fix := "Use vi.useFakeTimers() to control time, or increase TTL to 5+ seconds for real-time tests." }

/-- `/Math\.floor\s*\(\s*Date\.now\s*\(\s*\)\s*\/\s*1000\s*\)/g` -/
def patSecondTrunc : FlakyPattern :=
  { name := "Second truncation"
    regex := rxCat [rxStr "Math.floor", .star wsJS, rxChar '(', .star wsJS, rxStr "Date.now",
      .star wsJS, rxChar '(', .star wsJS, rxChar ')', .star wsJS, rxChar '/', .star wsJS,
      rxStr "1000", .star wsJS, rxChar ')']
    severity := .high
    risk := "Second truncation creates edge cases at second boundaries. A test starting at X.999s may see different values than expected."
    fix := "Mock Date.now() with vi.useFakeTimers() and vi.setSystemTime() for deterministic timestamps." }

/-- `/setTimeout\s*\([^,]+,\s*(\d{1,2})\s*\)/g` -/
def patShortSetTimeout : FlakyPattern :=
  { name := "Very short setTimeout"
    regex := rxCat [rxStr "setTimeout", .star wsJS, rxChar '(', .plus (fun c => !(c == ',')),
      rxChar ',', .star wsJS, .rep digitJS 1 2, .star wsJS, rxChar ')']
    severity := .high
    risk := "Timeouts under 100ms are unreliable across different machines and CI environments."
    fix := "Use vi.useFakeTimers() and vi.advanceTimersByTime() instead of real timeouts." }

/-- `/(?:delay|sleep|wait)\s*\(\s*(\d{1,2})\s*\)/g` -/
def patShortDelay : FlakyPattern :=
  { name := "Short delay/sleep"
    regex := rxCat [.alt (rxStr "delay") (.alt (rxStr "sleep") (rxStr "wait")), .star wsJS,
      rxChar '(', .star wsJS, .rep digitJS 1 2, .star wsJS, rxChar ')']
    severity := .high
    risk := "Very short delays are unreliable and cause race conditions."
    fix := "Use vi.useFakeTimers() or await specific conditions instead of arbitrary delays." }

/-- `/Date\.now\s*\(\s*\)/g` -/
def patDateNow : FlakyPattern :=
  { name := "Unmocked Date.now()"
    regex := rxCat [rxStr "Date.now", .star wsJS, rxChar '(', .star wsJS, rxChar ')']
    severity := .medium
    risk := "Real time in tests causes non-determinism. Tests may fail near second/minute boundaries."
    fix := "Mock with vi.useFakeTimers() and vi.setSystemTime(new Date(\x272024-01-01T12:00:00Z\x27))."}

/-- `/new\s+Date\s*\(\s*\)/g` -/
def patNewDate : FlakyPattern :=
  { name := "Unmocked new Date()"
    regex := rxCat [rxStr "new", .plus wsJS, rxStr "Date", .star wsJS, rxChar '(', .star wsJS,
      rxChar ')']
    severity := .medium
    risk := "Real date creates non-deterministic behavior. Timezone and time-of-day can affect results."
    fix := "Mock with vi.useFakeTimers() or pass explicit date values to constructors." }

/-- `/timeout\s*[=:]\s*([1-9]0?)\b/g` -/
def patLowTimeout : FlakyPattern :=
  { name := "Low timeout value"
    regex := rxCat [rxStr "timeout", .star wsJS, .cls eqColon, .star wsJS,
      .cls (fun c => '1' ≤ c && c ≤ '9'), .opt (rxChar '0'), .wordB]
    severity := .medium
    risk := "Low timeout values (under 100ms) cause race conditions in CI environments with variable load."
    fix := "Increase timeout to 1000+ ms or use vi.useFakeTimers() for timeout-dependent logic." }

/-- `/setInterval\s*\([^-]+\)/g` -/
def patSetInterval : FlakyPattern :=
  { name := "setInterval without cleanup"
    regex := rxCat [rxStr "setInterval", .star wsJS, rxChar '(', .plus (fun c => !(c == '-')),
      rxChar ')']
    severity := .medium
    risk := "Intervals without cleanup can leak between tests and cause interference."
    fix := "Store interval ID and call clearInterval in afterEach/cleanup, or use vi.useFakeTimers()." }

/-- `/Promise\.race\s*\(\s*\[[^\]]*\]\s*\)/g` -/
def patPromiseRace : FlakyPattern :=
  { name := "Promise.race without timeout"
    regex := rxCat [rxStr "Promise.race", .star wsJS, rxChar '(', .star wsJS, rxChar '[',
      .star (fun c => !(c == ']')), rxChar ']', .star wsJS, rxChar ')']
    severity := .medium
    risk := "Promise.race can hang indefinitely if no timeout promise is included."
    fix := "Always include a timeout promise: Promise.race([operation(), timeout(5000)])." }

/-- `/Math\.random\s*\(\s*\)/g` -/
def patMathRandom : FlakyPattern :=
  { name := "Unseeded Math.random()"
    regex := rxCat [rxStr "Math.random", .star wsJS, rxChar '(', .star wsJS, rxChar ')']
    severity := .low
    risk := "Random values without seeding cause non-reproducible test behavior."
    fix := "Use a seeded random generator or mock Math.random with vi.spyOn(Math, \x27random\x27)." }

/-- `/process\.nextTick\s*\(/g` -/
def patNextTick : FlakyPattern :=
  { name := "process.nextTick in tests"
    regex := rxCat [rxStr "process.nextTick", .star wsJS, rxChar '(']
    severity := .low
    risk := "Timing-dependent assertions using nextTick can be order-dependent."
    fix := "Use await flushPromises() or explicit async/await patterns." }

/-- `/(?:port|PORT)\s*[=:]\s*(\d{4,5})\b/g` -/
def patHardcodedPort : FlakyPattern :=
  { name := "Hardcoded port numbers"
    regex := rxCat [.alt (rxStr "port") (rxStr "PORT"), .star wsJS, .cls eqColon, .star wsJS,
      .rep digitJS 4 5, .wordB]
    severity := .low
    risk := "Hardcoded ports can conflict when tests run in parallel."
    fix := "Use port 0 for random available port, or use getPort() utility." }

/-- `/['\x60"]\/tmp\/[^'\x60"]+['\x60"]/g` -/
def patTmpPath : FlakyPattern :=
  { name := "File system temp paths"
    regex := rxCat [.cls quoteChar, rxChar '/', rxStr "tmp", rxChar '/',
      .plus (fun c => ! quoteChar c), .cls quoteChar]
    severity := .low
    risk := "Shared temp paths can conflict between parallel test runs."
    fix := "Use os.tmpdir() with unique subdirectories, or use tmp-promise package." }

/-- The fixed, ordered pattern catalog (`FLAKY_PATTERNS`). -/
def FLAKY_PATTERNS : List FlakyPattern :=
  [patTtl, patSecondTrunc, patShortSetTimeout, patShortDelay,
   patDateNow, patNewDate, patLowTimeout, patSetInterval, patPromiseRace,
   patMathRandom, patNextTick, patHardcodedPort, patTmpPath]

/-- The eight mitigation-signature regexes of `isLikelyMocked`:
`/vi\.useFakeTimers/`, `/jest\.useFakeTimers/`, `/vi\.setSystemTime/`,
`/jest\.setSystemTime/`, `/vi\.spyOn\s*\(\s*Date/`, `/jest\.spyOn\s*\(\s*Date/`,
`/mockDate/i`, `/MockDate/`. -/
def mockPatterns : List Rx :=
  [rxStr "vi.useFakeTimers",
   rxStr "jest.useFakeTimers",
   rxStr "vi.setSystemTime",
   rxStr "jest.setSystemTime",
   rxCat [rxStr "vi.spyOn", .star wsJS, rxChar '(', .star wsJS, rxStr "Date"],
   rxCat [rxStr "jest.spyOn", .star wsJS, rxChar '(', .star wsJS, rxStr "Date"],
   rxStrCI "mockDate",
   rxStr "MockDate"]

/-- JavaScript `content.substring(a, b)` for `a ≤ b` (characters `[a, b)`). -/
def substringJS (content : Content) (a b : Nat) : Content :=
  (content.take b).drop a

/-- `isLikelyMocked`: does the window of (at most) 2000 characters immediately
before `matchIndex` contain a mitigation signature?  `Nat` subtraction clips
the window start to the file start, as `Math.max(0, matchIndex - 2000)` does. -/
def isLikelyMocked (content : Content) (matchIndex : Nat) : Bool :=
  let beforeContent := substringJS content (matchIndex - 2000) matchIndex
  mockPatterns.any (fun rx => rxTest rx beforeContent)

/-- JavaScript `content.split("\n")`. -/
def splitNl : Content → List Content
  | [] => [[]]
  | c :: cs =>
      if c = '\n' then [] :: splitNl cs
      else
        match splitNl cs with
        | [] => [[c]]
        | l :: ls => (c :: l) :: ls

/-- The 1-based line number of character offset `idx`:
`content.substring(0, idx).split("\n").length`. -/
def lineNumberAt (content : Content) (idx : Nat) : Nat :=
  (splitNl (content.take idx)).length

/-- `n.toString().padStart(4)`. -/
def padStart4 (s : String) : String :=
  String.mk (List.replicate (4 - s.length) ' ') ++ s

/-- `extractContext`: up to `contextSize` lines around `lineIndex` (0-based),
each rendered with a marker on the matched line and its padded 1-based
absolute line number. -/
def extractContext (lines : List Content) (lineIndex : Nat) (contextSize : Nat) : List String :=
  let start := lineIndex - contextSize
  let stop := min lines.length (lineIndex + contextSize + 1)
  ((lines.drop start).take (stop - start)).enum.map (fun il =>
    let actualLineNum := start + il.1 + 1
    let marker := if actualLineNum == lineIndex + 1 then ">" else " "
    marker ++ " " ++ padStart4 (toString actualLineNum) ++ ": " ++ String.mk il.2)

/-- `Detection` record.  `file` keeps the path segments of the scanned file. -/
structure Detection where
  file : List String
  line : Nat
  pattern : String
  matchedText : Content
  severity : Severity
  risk : String
  fix : String
  context : List String
deriving DecidableEq, Repr

/-- The Detection pushed for the match `m = (match.index, match[0])` of rule
`pat` (body of the push in `scanFile`). -/
def mkDetection (filePath : List String) (content : Content) (lines : List Content)
    (pat : FlakyPattern) (m : Nat × Content) : Detection :=
  let lineNumber := lineNumberAt content m.1
  { file := filePath
    line := lineNumber
    pattern := pat.name
    matchedText := m.2
    severity := pat.severity
    risk := pat.risk
    fix := pat.fix
    context := extractContext lines (lineNumber - 1) 3 }

/-- The inner `while`-loop of `scanFile` for one catalog rule: enumerate the
matches of the rule's global regex (from `lastIndex = 0`); a match of a
non-high rule that is likely mocked is skipped, every other match pushes a
Detection. -/
def scanPatternRule (filePath : List String) (content : Content) (lines : List Content)
    (pat : FlakyPattern) : List Detection :=
  (execLoop pat.regex content 0).filterMap (fun m =>
    if pat.severity != .high && isLikelyMocked content m.1 then none
    else some (mkDetection filePath content lines pat m))

/-- The pure core of `scanFile`: detections of all catalog rules, in catalog
order, over one file content. -/
def scanContent (filePath : List String) (content : Content) : List Detection :=
  let lines := splitNl content
  FLAKY_PATTERNS.flatMap (scanPatternRule filePath content lines)

/- A filesystem snapshot: regular files with contents, and directories.
`Entry` / `EntryList` are a mutual pair so that recursion over the tree is
structural. -/
mutual
inductive Entry where
  | file (name : String) (content : Content)
  | dir (name : String) (entries : EntryList)
inductive EntryList where
  | nil
  | cons (e : Entry) (es : EntryList)
end

/-- The fixed ignore-list of directory names that are never descended into. -/
def ignoreDirs : List String :=
  ["node_modules", "dist", "build", ".git", "coverage"]

/-- Suffix test over the character list of a string
(`String.endsWith`, stated over `toList`). -/
def strEndsWith (s suffix : String) : Bool :=
  suffix.toList.isSuffixOf s.toList

/-- The test-file suffix check of `findTestFiles`. -/
def isTestFileName (name : String) : Bool :=
  strEndsWith name ".test.ts" || strEndsWith name ".spec.ts" ||
  strEndsWith name ".test.tsx" || strEndsWith name ".spec.tsx" ||
  strEndsWith name ".test.js" || strEndsWith name ".spec.js"

/- The recursive walk of `findTestFiles` (the loop over `readdirSync`
entries): files with a test suffix are collected with their path (and, in
the model, their content); directories named in the ignore-list are pruned,
all other directories are descended into. -/
mutual
def walkEntry (pre : List String) : Entry → List (List String × Content)
  | .file n c => if isTestFileName n then [(pre ++ [n], c)] else []
  | .dir n es => if ignoreDirs.contains n then [] else walkEntryList (pre ++ [n]) es
def walkEntryList (pre : List String) : EntryList → List (List String × Content)
  | .nil => []
  | .cons e es => walkEntry pre e ++ walkEntryList pre es
end

/-- `findTestFiles(dir)`: `none` models a root for which `fs.existsSync`
is false (return the empty accumulator); otherwise walk the root's entries.
The model returns each file's content along with its path, standing for the
later `readFileSync` of that path. -/
def findTestFiles (root : Option EntryList) : List (List String × Content) :=
  match root with
  | none => []
  | some es => walkEntryList [] es

/-- The `bySeverity` grouping of a `ScanResult`. -/
structure BySeverity where
  high : List Detection
  medium : List Detection
  low : List Detection
deriving DecidableEq, Repr

/-- `ScanResult` record. `byFile` models the insertion-ordered
`Map<string, Detection[]>` as an association list. -/
structure ScanResult where
  scannedFiles : Nat
  totalDetections : Nat
  detections : List Detection
  byFile : List (List String × List Detection)
  bySeverity : BySeverity
deriving DecidableEq, Repr

/-- JavaScript `Map.prototype.set`: overwrite the value of an existing key,
else append the binding at the end. -/
def mapSet (m : List (List String × List Detection)) (k : List String) (v : List Detection) :
    List (List String × List Detection) :=
  if m.any (fun e => e.1 == k) then m.map (fun e => if e.1 == k then (k, v) else e)
  else m ++ [(k, v)]

/-- The body of `scanDirectory`'s `for` loop, folded over the discovered
files: scan the file, and if it yielded detections append them to the flat
list and record the file group. -/
def aggStep (acc : List Detection × List (List String × List Detection))
    (fc : List String × Content) : List Detection × List (List String × List Detection) :=
  let fileDetections := scanContent fc.1 fc.2
  if fileDetections.length > 0 then (acc.1 ++ fileDetections, mapSet acc.2 fc.1 fileDetections)
  else acc

/-- `scanDirectory`: discover test files, scan each, aggregate, and group by
severity. -/
def scanDirectory (root : Option EntryList) : ScanResult :=
  let testFiles := findTestFiles root
  let agg := testFiles.foldl aggStep ([], [])
  { scannedFiles := testFiles.length
    totalDetections := agg.1.length
    detections := agg.1
    byFile := agg.2
    bySeverity :=
      { high := agg.1.filter (fun d => d.severity == .high)
        medium := agg.1.filter (fun d => d.severity == .medium)
        low := agg.1.filter (fun d => d.severity == .low) } }

/-- `lines.join("\n")`. -/
def joinLines : List String → String
  | [] => ""
  | [x] => x
  | x :: y :: xs => x ++ "\n" ++ joinLines (y :: xs)

/-- `path.basename` of a segment path. -/
def basename (p : List String) : String :=
  (p.getLast?).getD ""

/-- The per-detection block of the "High Risk" section. -/
def mdHighBlock (d : Detection) : List String :=
  ["**" ++ basename d.file ++ ":" ++ toString d.line ++ "**",
   "- Pattern: \x60" ++ String.mk d.matchedText ++ "\x60",
   "- Risk: " ++ d.risk,
   "- Fix: " ++ d.fix,
   "\n\x60\x60\x60typescript",
   joinLines d.context,
   "\x60\x60\x60\n"]

/-- The per-detection block of the "Medium Risk" section. -/
def mdMediumBlock (d : Detection) : List String :=
  ["**" ++ basename d.file ++ ":" ++ toString d.line ++ "**",
   "- Pattern: \x60" ++ String.mk d.matchedText ++ "\x60",
   "- Risk: " ++ d.risk,
   "- Fix: " ++ d.fix ++ "\n"]

/-- The per-detection line of the "Low Risk" section. -/
def mdLowLine (d : Detection) : String :=
  "- **" ++ basename d.file ++ ":" ++ toString d.line ++ "**: \x60" ++ String.mk d.matchedText ++ "\x60"

/-- `formatAsMarkdown`. -/
def formatAsMarkdown (result : ScanResult) : String :=
  let header : List String :=
    ["## Flaky Test Analysis\n",
     "Scanned **" ++ toString result.scannedFiles ++ "** test files, found **" ++
       toString result.totalDetections ++ "** potential flaky patterns.\n"]
  if result.totalDetections == 0 then
    joinLines (header ++ ["No flaky patterns detected. Your tests look deterministic!\n"])
  else
    let summary : List String :=
      ["### Summary\n", "| Severity | Count |", "|----------|-------|",
       "| High | " ++ toString result.bySeverity.high.length ++ " |",
       "| Medium | " ++ toString result.bySeverity.medium.length ++ " |",
       "| Low | " ++ toString result.bySeverity.low.length ++ " |", ""]
    let highSection : List String :=
      if result.bySeverity.high.length > 0 then
        "### High Risk\n" :: result.bySeverity.high.flatMap mdHighBlock
      else []
    let mediumSection : List String :=
      if result.bySeverity.medium.length > 0 then
        "### Medium Risk\n" :: result.bySeverity.medium.flatMap mdMediumBlock
      else []
    let lowSection : List String :=
      if result.bySeverity.low.length > 0 then
        ["### Low Risk\n",
         "<details><summary>Show " ++ toString result.bySeverity.low.length ++
           " low-risk patterns</summary>\n"] ++
        result.bySeverity.low.map mdLowLine ++ ["\n</details>\n"]
      else []
    let recommendations : List String :=
      ["### Recommended Actions\n"] ++
      (if result.bySeverity.high.length > 0 then
        ["1. **Immediate**: Fix all HIGH severity issues before merging",
         "2. Add \x60vi.useFakeTimers()\x60 in \x60beforeEach\x60 for time-dependent tests",
         "3. Use \x60vi.setSystemTime()\x60 for deterministic date/time"]
      else []) ++
      (if result.bySeverity.medium.length > 0 then
        ["4. Review MEDIUM severity patterns for potential issues"]
      else []) ++
      ["5. Consider adding this check to CI to prevent new flaky patterns\n"]
    joinLines (header ++ summary ++ highSection ++ mediumSection ++ lowSection ++ recommendations)

/-- JSON value trees.  `JSON.stringify` of such a tree followed by
`JSON.parse` is the identity on the tree, so the JSON Reporter is modelled
as producing the object tree that `formatAsJson` passes to
`JSON.stringify`. -/
inductive Json where
  | num (n : Nat)
  | str (s : String)
  | arr (elems : List Json)
  | obj (fields : List (String × Json))

/-- Field lookup on a parsed JSON object. -/
def Json.getField : Json → String → Option Json
  | .obj fields, k => (fields.find? (fun f => f.1 == k)).map (fun f => f.2)
  | _, _ => none

/-- The key set a JSON object exposes. -/
def Json.keys : Json → List String
  | .obj fields => fields.map (fun f => f.1)
  | _ => []

/-- The per-detection object of the JSON report: the listed fields, with the
context block omitted. -/
def detectionToJson (d : Detection) : Json :=
  .obj [("file", .str (String.intercalate "/" d.file)),
        ("line", .num d.line),
        ("pattern", .str d.pattern),
        ("matchedText", .str (String.mk d.matchedText)),
        ("severity", .str (severityToString d.severity)),
        ("risk", .str d.risk),
        ("fix", .str d.fix)]

/-- `formatAsJson`, as the object tree passed to `JSON.stringify`. -/
def formatAsJson (result : ScanResult) : Json :=
  .obj [("scannedFiles", .num result.scannedFiles),
        ("totalDetections", .num result.totalDetections),
        ("summary", .obj [("high", .num result.bySeverity.high.length),
                          ("medium", .num result.bySeverity.medium.length),
                          ("low", .num result.bySeverity.low.length)]),
        ("detections", .arr (result.detections.map detectionToJson))]

/-- The exit status of `main` in `scripts/index.ts`, given the argument list
and the filesystem at the resolved target directory (path resolution of the
first non-flag argument is outside the model; `--json` and `--quiet` only
affect printing).  `--help`/`-h` exits 0 before scanning; in CI mode a
result with high-severity detections exits 1; every other run falls through
to the implicit exit status 0. -/
def mainExitCode (args : List String) (root : Option EntryList) : Nat :=
  let ciMode := args.contains "--ci"
  let help := args.contains "--help" || args.contains "-h"
  if help then 0
  else
    let result := scanDirectory root
    if ciMode && result.bySeverity.high.length > 0 then 1 else 0

/-! ### Derived definitions used by the theorems -/

/-- Syntactic check that a regex can only match by consuming at least one
character. -/
def consumesOne : Rx → Bool
  | .eps => false
  | .cls _ => true
  | .seq a b => consumesOne a || consumesOne b
  | .alt a b => consumesOne a && consumesOne b
  | .star _ => false
  | .plus _ => true
  | .rep _ lo _ => lo != 0
  | .opt _ => false
  | .wordB => false

/-- One catalog rule's stateful scan step.  The incoming `lastIndex` of the
rule's shared global regex is `li`; `scanFile` resets it to 0 before the
exec loop (so the loop runs from 0, not from `li`), and the final failing
`exec` of the loop leaves `lastIndex = 0` behind. -/
def scanPatternRuleS (filePath : List String) (content : Content) (lines : List Content)
    (pat : FlakyPattern) (li : Nat) : List Detection × Nat :=
  ((execLoop pat.regex content 0).filterMap (fun m =>
    if pat.severity != .high && isLikelyMocked content m.1 then none
    else some (mkDetection filePath content lines pat m)), 0)

/-- `scanFile` with the mutable module state made explicit: `σ i` is the
`lastIndex` of the `i`-th catalog rule's regex left behind by whatever was
scanned before.  Returns the detections and the updated state. -/
def scanFileS (filePath : List String) (content : Content) (σ : Nat → Nat) :
    List Detection × (Nat → Nat) :=
  let lines := splitNl content
  (FLAKY_PATTERNS.enum.flatMap (fun ip => (scanPatternRuleS filePath content lines ip.2 (σ ip.1)).1),
   fun i => if i < FLAKY_PATTERNS.length then
      (scanPatternRuleS filePath content lines (FLAKY_PATTERNS.getD i patTtl) (σ i)).2
    else σ i)

/-- The three severity groups of a ScanResult, indexed by severity. -/
def severityGroup (r : ScanResult) : Severity → List Detection
  | .high => r.bySeverity.high
  | .medium => r.bySeverity.medium
  | .low => r.bySeverity.low

/-- The C2 invariants of a `scanDirectory` result: the severity groups'
sizes sum to the total; each detection occurrence is counted once in the
group of its own severity and zero times in the other two; regrouping the
`byFile` values reconstructs the flat detection list exactly; and every
detection carries the name and severity of the catalog rule that produced
it. -/
def C2Prop (root : Option EntryList) : Prop :=
  ((scanDirectory root).bySeverity.high.length +
      (scanDirectory root).bySeverity.medium.length +
      (scanDirectory root).bySeverity.low.length = (scanDirectory root).totalDetections) ∧
  (∀ d ∈ (scanDirectory root).detections,
    (severityGroup (scanDirectory root) d.severity).count d =
      (scanDirectory root).detections.count d ∧
    ∀ s, s ≠ d.severity → (severityGroup (scanDirectory root) s).count d = 0) ∧
  (((scanDirectory root).byFile.map Prod.snd).flatten = (scanDirectory root).detections) ∧
  (∀ d ∈ (scanDirectory root).detections,
    ∃ pat, pat ∈ FLAKY_PATTERNS ∧ d.pattern = pat.name ∧ d.severity = pat.severity)

/-! ### Engine lemmas -/

theorem starStatesCnt_mem (f : Char → Bool) :
    ∀ (s : Content) (p : Option Char) (kst : Nat × MState),
      kst ∈ starStatesCnt f p s → kst.2.2.length + kst.1 = s.length := by
  intro s
  induction s with
  | nil =>
      intro p kst h
      simp only [starStatesCnt, List.mem_singleton] at h
      subst h; simp
  | cons c cs ih =>
      intro p kst h
      simp only [starStatesCnt] at h
      by_cases hf : f c
      · rw [if_pos hf] at h
        rcases List.mem_append.mp h with h1 | h2
        · obtain ⟨kst', hmem, rfl⟩ := List.mem_map.mp h1
          have := ih (some c) kst' hmem
          simp only [List.length_cons]
          omega
        · simp only [List.mem_singleton] at h2
          subst h2; simp
      · rw [if_neg hf] at h
        simp only [List.mem_singleton] at h
        subst h; simp

theorem mrun_length_le (rx : Rx) :
    ∀ st st' : MState, st' ∈ mrun rx st → st'.2.length ≤ st.2.length := by
  induction rx with
  | eps =>
      intro st st' h
      simp only [mrun, List.mem_singleton] at h
      subst h; exact le_refl _
  | cls f =>
      rintro ⟨p, s⟩ st' h
      cases s with
      | nil => simp [mrun] at h
      | cons c cs =>
          simp only [mrun] at h
          by_cases hf : f c
          · rw [if_pos hf] at h
            simp only [List.mem_singleton] at h
            subst h; simp
          · rw [if_neg hf] at h
            simp at h
  | seq a b iha ihb =>
      intro st st' h
      simp only [mrun, List.mem_flatMap] at h
      obtain ⟨mid, hmid, hst'⟩ := h
      exact le_trans (ihb mid st' hst') (iha st mid hmid)
  | alt a b iha ihb =>
      intro st st' h
      rcases List.mem_append.mp h with h1 | h2
      · exact iha st st' h1
      · exact ihb st st' h2
  | star f =>
      rintro ⟨p, s⟩ st' h
      simp only [mrun, List.mem_map] at h
      obtain ⟨kst, hmem, rfl⟩ := h
      have := starStatesCnt_mem f s p kst hmem
      show kst.2.2.length ≤ s.length
      omega
  | plus f =>
      rintro ⟨p, s⟩ st' h
      simp only [mrun, List.mem_map, List.mem_filter] at h
      obtain ⟨kst, ⟨hmem, _⟩, rfl⟩ := h
      have := starStatesCnt_mem f s p kst hmem
      show kst.2.2.length ≤ s.length
      omega
  | rep f lo hi =>
      rintro ⟨p, s⟩ st' h
      simp only [mrun, List.mem_map, List.mem_filter] at h
      obtain ⟨kst, ⟨hmem, _⟩, rfl⟩ := h
      have := starStatesCnt_mem f s p kst hmem
      show kst.2.2.length ≤ s.length
      omega
  | opt a iha =>
      intro st st' h
      rcases List.mem_append.mp h with h1 | h2
      · exact iha st st' h1
      · simp only [List.mem_singleton] at h2
        subst h2; exact le_refl _
  | wordB =>
      rintro ⟨p, s⟩ st' h
      simp only [mrun] at h
      split at h
      · simp only [List.mem_singleton] at h
        subst h; exact le_refl _
      · simp at h

theorem mrun_length_lt (rx : Rx) (hc : consumesOne rx = true) :
    ∀ st st' : MState, st' ∈ mrun rx st → st'.2.length < st.2.length := by
  induction rx with
  | eps => exact fun st st' h => Bool.noConfusion hc
  | cls f =>
      rintro ⟨p, s⟩ st' h
      cases s with
      | nil => simp [mrun] at h
      | cons c cs =>
          simp only [mrun] at h
          by_cases hf : f c
          · rw [if_pos hf] at h
            simp only [List.mem_singleton] at h
            subst h; simp
          · rw [if_neg hf] at h
            simp at h
  | seq a b iha ihb =>
      intro st st' h
      simp only [mrun, List.mem_flatMap] at h
      obtain ⟨mid, hmid, hst'⟩ := h
      rcases (by simpa [consumesOne] using hc : consumesOne a = true ∨ consumesOne b = true) with hca | hcb
      · exact lt_of_le_of_lt (mrun_length_le b mid st' hst') (iha hca st mid hmid)
      · exact lt_of_lt_of_le (ihb hcb mid st' hst') (mrun_length_le a st mid hmid)
  | alt a b iha ihb =>
      intro st st' h
      have hab : consumesOne a = true ∧ consumesOne b = true := by simpa [consumesOne] using hc
      rcases List.mem_append.mp h with h1 | h2
      · exact iha hab.1 st st' h1
      · exact ihb hab.2 st st' h2
  | star f => exact fun st st' h => Bool.noConfusion hc
  | plus f =>
      rintro ⟨p, s⟩ st' h
      simp only [mrun, List.mem_map, List.mem_filter, bne_iff_ne, ne_eq] at h
      obtain ⟨kst, ⟨hmem, hk⟩, rfl⟩ := h
      have := starStatesCnt_mem f s p kst hmem
      show kst.2.2.length < s.length
      omega
  | rep f lo hi =>
      rintro ⟨p, s⟩ st' h
      simp only [mrun, List.mem_map, List.mem_filter, Bool.and_eq_true, decide_eq_true_eq] at h
      obtain ⟨kst, ⟨hmem, hk⟩, rfl⟩ := h
      have := starStatesCnt_mem f s p kst hmem
      have hlo : lo ≠ 0 := by simpa [consumesOne] using hc
      show kst.2.2.length < s.length
      omega
  | opt a iha => exact fun st st' h => Bool.noConfusion hc
  | wordB => exact fun st st' h => Bool.noConfusion hc

/-- C10: every match that any of the 13 catalog regexes produces is a
nonempty substring, so in `scanFile`'s global-regex exec loop the search
position strictly increases after every match and each per-rule loop visits
finitely many matches (every finite input terminates). -/
theorem scanFile_matches_nonempty :
    ∀ pat ∈ FLAKY_PATTERNS, ∀ (p : Option Char) (s : Content) (len : Nat),
      matchLen pat.regex p s = some len → 1 ≤ len := by
  have hall : FLAKY_PATTERNS.all (fun q => consumesOne q.regex) = true := by decide
  intro pat hpat p s len hm
  have hc : consumesOne pat.regex = true := by
    simpa using List.all_eq_true.mp hall pat hpat
  unfold matchLen at hm
  cases hh : (mrun pat.regex (p, s)).head? with
  | none => rw [hh] at hm; simp at hm
  | some st =>
      rw [hh] at hm
      simp at hm
      have hmem : st ∈ mrun pat.regex (p, s) := List.mem_of_mem_head? (Option.mem_def.mpr hh)
      have hlt : st.2.length < s.length := mrun_length_lt pat.regex hc (p, s) st hmem
      omega

/-- Witness for C10: the `Math.random()` rule at a concrete input. -/
theorem scanFile_matches_nonempty_witness :
    matchLen patMathRandom.regex none ("Math.random()".toList) = some 13 ∧ 1 ≤ 13 :=
  ⟨by decide,
   scanFile_matches_nonempty patMathRandom (by simp [FLAKY_PATTERNS]) none
     ("Math.random()".toList) 13 (by decide)⟩

/-! ### Line numbers (C4) -/

theorem splitNl_ne_nil : ∀ s : Content, splitNl s ≠ [] := by
  intro s
  cases s with
  | nil => simp [splitNl]
  | cons c cs =>
      simp only [splitNl]
      by_cases hc : c = '\n'
      · simp [hc]
      · rw [if_neg hc]
        cases heq : splitNl cs <;> simp

theorem splitNl_length (s : Content) : (splitNl s).length = s.count '\n' + 1 := by
  induction s with
  | nil => simp [splitNl]
  | cons c cs ih =>
      by_cases hc : c = '\n'
      · subst hc
        simp [splitNl, List.count_cons, ih]
      · have hne := splitNl_ne_nil cs
        cases heq : splitNl cs with
        | nil => exact absurd heq hne
        | cons l ls =>
            have hlen : (l :: ls).length = cs.count '\n' + 1 := by rw [← heq, ih]
            have hcount : (c :: cs).count '\n' = cs.count '\n' := by
              rw [List.count_cons]
              simp [hc]
            simp only [splitNl, if_neg hc, heq, List.length_cons, hcount]
            simp at hlen
            omega

/-- C4: the Detection emitted for an accepted match has a 1-based line number
equal to one plus the number of newline characters strictly before the
match's start offset; and every detection `scanFile` emits arises this way
from some catalog rule's match. -/
theorem detection_line_number :
    (∀ (path : List String) (content : Content) (lines : List Content)
       (pat : FlakyPattern) (m : Nat × Content),
       (mkDetection path content lines pat m).line = (content.take m.1).count '\n' + 1)
    ∧ (∀ (path : List String) (content : Content) (d : Detection),
       d ∈ scanContent path content →
       ∃ pat m, pat ∈ FLAKY_PATTERNS ∧ m ∈ execLoop pat.regex content 0 ∧
         d = mkDetection path content (splitNl content) pat m ∧
         d.line = (content.take m.1).count '\n' + 1) := by
  have hline : ∀ (path : List String) (content : Content) (lines : List Content)
      (pat : FlakyPattern) (m : Nat × Content),
      (mkDetection path content lines pat m).line = (content.take m.1).count '\n' + 1 := by
    intro path content lines pat m
    show lineNumberAt content m.1 = (content.take m.1).count '\n' + 1
    exact splitNl_length _
  refine ⟨hline, ?_⟩
  intro path content d hd
  simp only [scanContent, List.mem_flatMap] at hd
  obtain ⟨pat, hpat, hmem⟩ := hd
  simp only [scanPatternRule, List.mem_filterMap] at hmem
  obtain ⟨m, hm, hsome⟩ := hmem
  by_cases hskip : (pat.severity != .high && isLikelyMocked content m.1) = true
  · rw [if_pos hskip] at hsome
    exact absurd hsome (by simp)
  · rw [if_neg hskip] at hsome
    obtain rfl : mkDetection path content (splitNl content) pat m = d := by
      simpa using hsome
    exact ⟨pat, m, hpat, hm, rfl, hline _ _ _ _ _⟩

/-- Witness for C4: `Math.random()` on the second line of a concrete file. -/
theorem detection_line_number_witness :
    ∃ pat m, pat ∈ FLAKY_PATTERNS ∧
      m ∈ execLoop pat.regex ("x\nMath.random()".toList) 0 ∧
      mkDetection ["a.test.ts"] ("x\nMath.random()".toList)
          (splitNl ("x\nMath.random()".toList)) patMathRandom
          (2, "Math.random()".toList)
        = mkDetection ["a.test.ts"] ("x\nMath.random()".toList)
            (splitNl ("x\nMath.random()".toList)) pat m ∧
      (mkDetection ["a.test.ts"] ("x\nMath.random()".toList)
          (splitNl ("x\nMath.random()".toList)) patMathRandom
          (2, "Math.random()".toList)).line
        = (("x\nMath.random()".toList).take m.1).count '\n' + 1 :=
  detection_line_number.2 ["a.test.ts"] ("x\nMath.random()".toList)
    (mkDetection ["a.test.ts"] ("x\nMath.random()".toList)
      (splitNl ("x\nMath.random()".toList)) patMathRandom (2, "Math.random()".toList))
    (by decide)

/-! ### Mitigation suppression (C1) -/

theorem filterMap_if_eq_map_filter {α β : Type} (c : α → Bool) (g : α → β) (L : List α) :
    L.filterMap (fun m => if c m then none else some (g m)) =
      (L.filter (fun m => !(c m))).map g := by
  induction L with
  | nil => rfl
  | cons x xs ih => by_cases hx : c x <;> simp [hx, ih]

theorem scanPatternRule_fields {path : List String} {content : Content}
    {lines : List Content} {pat : FlakyPattern} {d : Detection}
    (h : d ∈ scanPatternRule path content lines pat) :
    d.pattern = pat.name ∧ d.severity = pat.severity := by
  simp only [scanPatternRule, List.mem_filterMap] at h
  obtain ⟨m, _, hsome⟩ := h
  by_cases hskip : (pat.severity != .high && isLikelyMocked content m.1) = true
  · rw [if_pos hskip] at hsome; simp at hsome
  · rw [if_neg hskip] at hsome
    obtain rfl : mkDetection path content lines pat m = d := by simpa using hsome
    exact ⟨rfl, rfl⟩

theorem scanPatternRule_eq_map_filter (path : List String) (content : Content)
    (lines : List Content) (pat : FlakyPattern) :
    scanPatternRule path content lines pat =
      ((execLoop pat.regex content 0).filter
        (fun m => pat.severity == Severity.high || !(isLikelyMocked content m.1))).map
        (mkDetection path content lines pat) := by
  have hfun : (fun m : Nat × Content =>
      !(pat.severity != Severity.high && isLikelyMocked content m.1)) =
      (fun m : Nat × Content => pat.severity == Severity.high || !(isLikelyMocked content m.1)) := by
    funext m
    simp [bne, Bool.not_and, Bool.not_not]
  rw [scanPatternRule, filterMap_if_eq_map_filter, hfun]

theorem flatMap_filter_name (path : List String) (content : Content) (lines : List Content) :
    ∀ (cat : List FlakyPattern) (pat : FlakyPattern), pat ∈ cat →
      (cat.map (fun q => q.name)).Nodup →
      (cat.flatMap (scanPatternRule path content lines)).filter
          (fun d => d.pattern == pat.name) =
        scanPatternRule path content lines pat := by
  intro cat
  induction cat with
  | nil => intro pat h; simp at h
  | cons q rest ih =>
      intro pat hmem hnd
      have hhead : q.name ∉ rest.map (fun q => q.name) :=
        (List.nodup_cons.mp (by simpa using hnd)).1
      have htail : (rest.map (fun q => q.name)).Nodup :=
        (List.nodup_cons.mp (by simpa using hnd)).2
      simp only [List.flatMap_cons, List.filter_append]
      rcases List.mem_cons.mp hmem with rfl | hrest
      · have h1 : (scanPatternRule path content lines pat).filter
            (fun d => d.pattern == pat.name) = scanPatternRule path content lines pat :=
          List.filter_eq_self.mpr (fun d hd => by simp [(scanPatternRule_fields hd).1])
        have h2 : (rest.flatMap (scanPatternRule path content lines)).filter
            (fun d => d.pattern == pat.name) = [] := by
          rw [List.filter_eq_nil_iff]
          intro d hd
          simp only [List.mem_flatMap] at hd
          obtain ⟨q', hq', hdq⟩ := hd
          have hname := (scanPatternRule_fields hdq).1
          have hne : q'.name ≠ pat.name := by
            intro hcontra
            exact hhead (hcontra ▸ List.mem_map.mpr ⟨q', hq', rfl⟩)
          simp [hname, hne]
        rw [h1, h2, List.append_nil]
      · have hqname : q.name ≠ pat.name := by
          intro hcontra
          exact hhead (by rw [hcontra]; exact List.mem_map.mpr ⟨pat, hrest, rfl⟩)
        have h1 : (scanPatternRule path content lines q).filter
            (fun d => d.pattern == pat.name) = [] := by
          rw [List.filter_eq_nil_iff]
          intro d hd
          have := (scanPatternRule_fields hd).1
          simp [this, hqname]
        rw [h1, List.nil_append, ih pat hrest htail]

/-- C1: for every catalog rule, the detections `scanFile` emits under that
rule's name are exactly the rule's regex matches that survive the mitigation
heuristic: a match is kept (and yields exactly its one Detection, in match
order) if and only if the rule is high-severity or the window of at most
2000 characters immediately preceding the match start contains no mitigation
signature; high-severity matches are never suppressed. -/
theorem scanFile_mitigation_suppression :
    ∀ (path : List String) (content : Content) (pat : FlakyPattern),
      pat ∈ FLAKY_PATTERNS →
      (scanContent path content).filter (fun d => d.pattern == pat.name) =
        ((execLoop pat.regex content 0).filter
          (fun m => pat.severity == Severity.high || !(isLikelyMocked content m.1))).map
          (mkDetection path content (splitNl content) pat) := by
  intro path content pat hpat
  have hnd : (FLAKY_PATTERNS.map (fun q => q.name)).Nodup := by decide
  have h := flatMap_filter_name path content (splitNl content) FLAKY_PATTERNS pat hpat hnd
  calc (scanContent path content).filter (fun d => d.pattern == pat.name)
      = (FLAKY_PATTERNS.flatMap (scanPatternRule path content (splitNl content))).filter
          (fun d => d.pattern == pat.name) := by rw [scanContent]
    _ = scanPatternRule path content (splitNl content) pat := h
    _ = _ := scanPatternRule_eq_map_filter path content (splitNl content) pat

/-- Witness for C1: a file whose first `Date.now()` has no mitigation
signature before it (kept) and whose second follows `vi.useFakeTimers`
(suppressed). -/
theorem scanFile_mitigation_suppression_witness :
    ((scanContent ["t.test.ts"] ("Date.now()\nvi.useFakeTimers()\nDate.now()".toList)).filter
        (fun d => d.pattern == patDateNow.name)).length = 1 ∧
    (scanContent ["t.test.ts"] ("Date.now()\nvi.useFakeTimers()\nDate.now()".toList)).filter
        (fun d => d.pattern == patDateNow.name) =
      ((execLoop patDateNow.regex ("Date.now()\nvi.useFakeTimers()\nDate.now()".toList) 0).filter
        (fun m => patDateNow.severity == Severity.high ||
          !(isLikelyMocked ("Date.now()\nvi.useFakeTimers()\nDate.now()".toList) m.1))).map
        (mkDetection ["t.test.ts"] ("Date.now()\nvi.useFakeTimers()\nDate.now()".toList)
          (splitNl ("Date.now()\nvi.useFakeTimers()\nDate.now()".toList)) patDateNow) :=
  ⟨by decide,
   scanFile_mitigation_suppression ["t.test.ts"]
     ("Date.now()\nvi.useFakeTimers()\nDate.now()".toList) patDateNow
     (by simp [FLAKY_PATTERNS])⟩

/-! ### Markdown all-clear output (C3, C7) -/

/-- Counterexample to C3 as stated: with zero detections the Markdown
Reporter's output is not the congratulatory line alone — it is preceded by
the analysis header and the scanned/found counts line. -/
theorem markdown_zero_counterexample :
    formatAsMarkdown (scanDirectory none) ≠
      "No flaky patterns detected. Your tests look deterministic!\n" ∧
    ("## Flaky Test Analysis".toList).isPrefixOf
      ((formatAsMarkdown (scanDirectory none)).toList) = true ∧
    formatAsMarkdown (scanDirectory none) =
      "## Flaky Test Analysis\n" ++ "\n" ++
        ("Scanned **0** test files, found **0** potential flaky patterns.\n" ++
          ("\n" ++ "No flaky patterns detected. Your tests look deterministic!\n")) := by
  refine ⟨by decide, by decide, by decide⟩

/-- C3 (amended): with zero total detections the Markdown Reporter emits the
analysis header line, the scanned/found counts line, and the congratulatory
line, and nothing else. -/
theorem markdown_zero_all_clear :
    ∀ r : ScanResult, r.totalDetections = 0 →
      formatAsMarkdown r =
        joinLines ["## Flaky Test Analysis\n",
          "Scanned **" ++ toString r.scannedFiles ++ "** test files, found **" ++
            toString (0 : Nat) ++ "** potential flaky patterns.\n",
          "No flaky patterns detected. Your tests look deterministic!\n"] := by
  intro r h
  unfold formatAsMarkdown
  rw [h]
  rfl

/-- Witness for C3's amended theorem at the empty scan (the second conjunct
spells out the fully evaluated report string). -/
theorem markdown_zero_all_clear_witness :
    (formatAsMarkdown (scanDirectory none) =
      joinLines ["## Flaky Test Analysis\n",
        "Scanned **" ++ toString (scanDirectory none).scannedFiles ++ "** test files, found **" ++
          toString (0 : Nat) ++ "** potential flaky patterns.\n",
        "No flaky patterns detected. Your tests look deterministic!\n"]) ∧
    formatAsMarkdown (scanDirectory none) =
      "## Flaky Test Analysis\n\nScanned **0** test files, found **0** potential flaky patterns.\n\nNo flaky patterns detected. Your tests look deterministic!\n" :=
  ⟨markdown_zero_all_clear (scanDirectory none) (by decide), by decide⟩

/-- C7: a missing root directory yields no test files, and any root without
test files produces the empty ScanResult (zero scanned files, zero
detections, empty groupings) with no failure, whose Markdown report is the
all-clear message. -/
theorem empty_scan_result :
    findTestFiles none = [] ∧
    ∀ root : Option EntryList, findTestFiles root = [] →
      scanDirectory root =
        { scannedFiles := 0, totalDetections := 0, detections := [], byFile := [],
          bySeverity := { high := [], medium := [], low := [] } } ∧
      formatAsMarkdown (scanDirectory root) =
        joinLines ["## Flaky Test Analysis\n",
          "Scanned **0** test files, found **0** potential flaky patterns.\n",
          "No flaky patterns detected. Your tests look deterministic!\n"] := by
  refine ⟨rfl, ?_⟩
  intro root h
  have hsd : scanDirectory root =
      { scannedFiles := 0, totalDetections := 0, detections := [], byFile := [],
        bySeverity := { high := [], medium := [], low := [] } } := by
    unfold scanDirectory
    rw [h]
    rfl
  refine ⟨hsd, ?_⟩
  rw [hsd]
  decide

/-- Witness for C7 at the nonexistent root. -/
theorem empty_scan_result_witness :
    scanDirectory none =
      { scannedFiles := 0, totalDetections := 0, detections := [], byFile := [],
        bySeverity := { high := [], medium := [], low := [] } } ∧
    formatAsMarkdown (scanDirectory none) =
      joinLines ["## Flaky Test Analysis\n",
        "Scanned **0** test files, found **0** potential flaky patterns.\n",
        "No flaky patterns detected. Your tests look deterministic!\n"] :=
  empty_scan_result.2 none rfl

/-! ### JSON reporter (C5) -/

/-- C5: the JSON Reporter's output, parsed back, exposes `scannedFiles`,
`totalDetections`, the `summary` object with the three severity counts,
and a `detections` list whose length equals `totalDetections`; each element
carries exactly the file, line, pattern, matchedText, severity, risk and
fix of its Detection and omits the context block. -/
theorem json_report_roundtrip :
    ∀ r : ScanResult, r.totalDetections = r.detections.length →
      (formatAsJson r).getField "scannedFiles" = some (.num r.scannedFiles) ∧
      (formatAsJson r).getField "totalDetections" = some (.num r.totalDetections) ∧
      (formatAsJson r).getField "summary" =
        some (.obj [("high", .num r.bySeverity.high.length),
                    ("medium", .num r.bySeverity.medium.length),
                    ("low", .num r.bySeverity.low.length)]) ∧
      (formatAsJson r).getField "detections" =
        some (.arr (r.detections.map detectionToJson)) ∧
      (r.detections.map detectionToJson).length = r.totalDetections ∧
      ∀ d ∈ r.detections,
        (detectionToJson d).keys =
          ["file", "line", "pattern", "matchedText", "severity", "risk", "fix"] ∧
        (detectionToJson d).getField "file" = some (.str (String.intercalate "/" d.file)) ∧
        (detectionToJson d).getField "line" = some (.num d.line) ∧
        (detectionToJson d).getField "pattern" = some (.str d.pattern) ∧
        (detectionToJson d).getField "matchedText" = some (.str (String.mk d.matchedText)) ∧
        (detectionToJson d).getField "severity" = some (.str (severityToString d.severity)) ∧
        (detectionToJson d).getField "risk" = some (.str d.risk) ∧
        (detectionToJson d).getField "fix" = some (.str d.fix) ∧
        (detectionToJson d).getField "context" = none := by
  intro r h
  refine ⟨rfl, rfl, rfl, rfl, ?_, ?_⟩
  · simp [h]
  · intro d _
    exact ⟨rfl, rfl, rfl, rfl, rfl, rfl, rfl, rfl, rfl⟩

/-- Witness for C5 at a one-detection scan. -/
theorem json_report_roundtrip_witness :
    (formatAsJson (scanDirectory (some (.cons (.file "j.test.ts" ("Math.random()".toList)) .nil)))).getField
        "scannedFiles" =
      some (.num (scanDirectory (some (.cons (.file "j.test.ts" ("Math.random()".toList)) .nil))).scannedFiles) ∧
    (formatAsJson (scanDirectory (some (.cons (.file "j.test.ts" ("Math.random()".toList)) .nil)))).getField
        "totalDetections" =
      some (.num (scanDirectory (some (.cons (.file "j.test.ts" ("Math.random()".toList)) .nil))).totalDetections) ∧
    (formatAsJson (scanDirectory (some (.cons (.file "j.test.ts" ("Math.random()".toList)) .nil)))).getField
        "summary" =
      some (.obj [("high", .num (scanDirectory (some (.cons (.file "j.test.ts" ("Math.random()".toList)) .nil))).bySeverity.high.length),
                  ("medium", .num (scanDirectory (some (.cons (.file "j.test.ts" ("Math.random()".toList)) .nil))).bySeverity.medium.length),
                  ("low", .num (scanDirectory (some (.cons (.file "j.test.ts" ("Math.random()".toList)) .nil))).bySeverity.low.length)]) ∧
    (formatAsJson (scanDirectory (some (.cons (.file "j.test.ts" ("Math.random()".toList)) .nil)))).getField
        "detections" =
      some (.arr ((scanDirectory (some (.cons (.file "j.test.ts" ("Math.random()".toList)) .nil))).detections.map detectionToJson)) ∧
    ((scanDirectory (some (.cons (.file "j.test.ts" ("Math.random()".toList)) .nil))).detections.map detectionToJson).length =
      (scanDirectory (some (.cons (.file "j.test.ts" ("Math.random()".toList)) .nil))).totalDetections ∧
    ∀ d ∈ (scanDirectory (some (.cons (.file "j.test.ts" ("Math.random()".toList)) .nil))).detections,
      (detectionToJson d).keys =
        ["file", "line", "pattern", "matchedText", "severity", "risk", "fix"] ∧
      (detectionToJson d).getField "file" = some (.str (String.intercalate "/" d.file)) ∧
      (detectionToJson d).getField "line" = some (.num d.line) ∧
      (detectionToJson d).getField "pattern" = some (.str d.pattern) ∧
      (detectionToJson d).getField "matchedText" = some (.str (String.mk d.matchedText)) ∧
      (detectionToJson d).getField "severity" = some (.str (severityToString d.severity)) ∧
      (detectionToJson d).getField "risk" = some (.str d.risk) ∧
      (detectionToJson d).getField "fix" = some (.str d.fix) ∧
      (detectionToJson d).getField "context" = none :=
  json_report_roundtrip
    (scanDirectory (some (.cons (.file "j.test.ts" ("Math.random()".toList)) .nil))) (by decide)

/-! ### CLI exit status (C8) -/

/-- C8: with `--ci` given (and no `--help`/`-h`), the CLI exits with a
non-zero status exactly when the scan found at least one high-severity
detection; medium/low-only results exit 0. -/
theorem ci_exit_code :
    ∀ (args : List String) (root : Option EntryList),
      args.contains "--ci" = true →
      args.contains "--help" = false →
      args.contains "-h" = false →
      (mainExitCode args root ≠ 0 ↔
        0 < (scanDirectory root).bySeverity.high.length) := by
  intro args root hci hh1 hh2
  unfold mainExitCode
  rw [hci, hh1, hh2]
  by_cases hpos : 0 < (scanDirectory root).bySeverity.high.length
  · simp [hpos]
  · simp [hpos, Nat.not_lt.mp hpos]

/-- Witness for C8: `--ci` on a directory with one high-severity detection. -/
theorem ci_exit_code_witness :
    mainExitCode ["--ci"] (some (.cons (.file "c.test.ts" ("setTimeout(f, 5)".toList)) .nil)) = 1 ∧
    (mainExitCode ["--ci"] (some (.cons (.file "c.test.ts" ("setTimeout(f, 5)".toList)) .nil)) ≠ 0 ↔
      0 < (scanDirectory (some (.cons (.file "c.test.ts" ("setTimeout(f, 5)".toList)) .nil))).bySeverity.high.length) :=
  ⟨by decide,
   ci_exit_code ["--ci"] (some (.cons (.file "c.test.ts" ("setTimeout(f, 5)".toList)) .nil))
     (by decide) (by decide) (by decide)⟩

/-! ### Scanner state independence (C9) -/

theorem scanFileS_detections (filePath : List String) (content : Content) (σ : Nat → Nat) :
    (scanFileS filePath content σ).1 = scanContent filePath content := by
  show (FLAKY_PATTERNS.enum.flatMap
      (fun ip => (scanPatternRuleS filePath content (splitNl content) ip.2 (σ ip.1)).1)) = _
  have h1 : ∀ ip : Nat × FlakyPattern,
      (scanPatternRuleS filePath content (splitNl content) ip.2 (σ ip.1)).1 =
        scanPatternRule filePath content (splitNl content) ip.2 := fun _ => rfl
  calc FLAKY_PATTERNS.enum.flatMap
        (fun ip => (scanPatternRuleS filePath content (splitNl content) ip.2 (σ ip.1)).1)
      = FLAKY_PATTERNS.enum.flatMap
          (fun ip => scanPatternRule filePath content (splitNl content) ip.2) := by
        simp only [h1]
    _ = (FLAKY_PATTERNS.enum.map Prod.snd).flatMap
          (scanPatternRule filePath content (splitNl content)) := by
        rw [List.flatMap_map]
    _ = FLAKY_PATTERNS.flatMap (scanPatternRule filePath content (splitNl content)) := by
        rw [List.enum_map_snd]
    _ = scanContent filePath content := rfl

/-- C9: the detections `scanFile` produces are a function of the scanned
content alone — they are the same for any incoming matcher state (any
`lastIndex` values left behind by previously scanned files), because every
rule's `lastIndex` is reset to 0 before its matches are enumerated; in
particular scanning a file after any other file gives exactly the fresh
scan of that file. -/
theorem scanFile_state_independent :
    ∀ (filePath : List String) (content : Content) (σ σ' : Nat → Nat),
      (scanFileS filePath content σ).1 = (scanFileS filePath content σ').1 ∧
      (scanFileS filePath content σ).1 = scanContent filePath content ∧
      ∀ (pA : List String) (cA : Content),
        (scanFileS filePath content ((scanFileS pA cA σ).2)).1 = scanContent filePath content := by
  intro filePath content σ σ'
  refine ⟨?_, scanFileS_detections filePath content σ, ?_⟩
  · rw [scanFileS_detections, scanFileS_detections]
  · intro pA cA
    exact scanFileS_detections filePath content _

/-! ### Directory pruning (C6) -/

theorem walk_mem_structure :
    ∀ (es : EntryList) (pre : List String) (pc : List String × Content),
      pc ∈ walkEntryList pre es →
      ∃ mid, pc.1 = pre ++ mid ∧ mid ≠ [] ∧ ∀ seg ∈ mid.dropLast, ¬ seg ∈ ignoreDirs := by
  have main := @EntryList.rec
    (fun e => ∀ (pre : List String) (pc : List String × Content),
      pc ∈ walkEntry pre e →
      ∃ mid, pc.1 = pre ++ mid ∧ mid ≠ [] ∧ ∀ seg ∈ mid.dropLast, ¬ seg ∈ ignoreDirs)
    (fun es => ∀ (pre : List String) (pc : List String × Content),
      pc ∈ walkEntryList pre es →
      ∃ mid, pc.1 = pre ++ mid ∧ mid ≠ [] ∧ ∀ seg ∈ mid.dropLast, ¬ seg ∈ ignoreDirs)
    ?file ?dir ?nil ?cons
  case file =>
    intro n c pre pc h
    simp only [walkEntry] at h
    by_cases ht : isTestFileName n
    · rw [if_pos ht] at h
      simp only [List.mem_singleton] at h
      subst h
      exact ⟨[n], rfl, by simp, by simp⟩
    · rw [if_neg ht] at h
      simp at h
  case dir =>
    intro n es ih pre pc h
    simp only [walkEntry] at h
    by_cases hig : ignoreDirs.contains n
    · rw [if_pos hig] at h
      simp at h
    · rw [if_neg hig] at h
      obtain ⟨mid, heq, hne, hmid⟩ := ih (pre ++ [n]) pc h
      refine ⟨n :: mid, ?_, by simp, ?_⟩
      · rw [heq]; simp
      · rw [List.dropLast_cons_of_ne_nil hne]
        intro seg hseg
        rcases List.mem_cons.mp hseg with rfl | hseg'
        · intro hmem
          exact hig (by simpa using hmem)
        · exact hmid seg hseg'
  case nil =>
    intro pre pc h
    simp [walkEntryList] at h
  case cons =>
    intro e es ihe ihes pre pc h
    simp only [walkEntryList] at h
    rcases List.mem_append.mp h with h1 | h2
    · exact ihe pre pc h1
    · exact ihes pre pc h2
  exact main

/-- C6: `findTestFiles` never returns a file lying under a directory named
in the fixed ignore-list — no directory component of any returned path is an
ignore-list entry, whatever the tree contains. -/
theorem findTestFiles_prunes_ignored :
    ∀ (es : EntryList) (pc : List String × Content),
      pc ∈ findTestFiles (some es) →
      ∀ seg ∈ pc.1.dropLast, ¬ seg ∈ ignoreDirs := by
  intro es pc h seg hseg
  obtain ⟨mid, heq, _, hmid⟩ := walk_mem_structure es [] pc h
  rw [heq, List.nil_append] at hseg
  exact hmid seg hseg

/-- Witness for C6: a tree with a `node_modules` directory containing a
test-named file (ignored) and a real test file under `src`. -/
theorem findTestFiles_prunes_ignored_witness :
    ¬ "src" ∈ ignoreDirs :=
  findTestFiles_prunes_ignored
    (.cons (.dir "node_modules" (.cons (.file "x.test.ts" []) .nil))
      (.cons (.dir "src" (.cons (.file "a.test.ts" []) .nil)) .nil))
    (["src", "a.test.ts"], []) (by decide) "src" (by decide)

/-! ### ScanResult partitions (C2) -/

theorem foldl_agg_detections :
    ∀ (files : List (List String × Content)) (acc1 : List Detection)
      (acc2 : List (List String × List Detection)),
      (files.foldl aggStep (acc1, acc2)).1 =
        acc1 ++ files.flatMap (fun fc => scanContent fc.1 fc.2) := by
  intro files
  induction files with
  | nil => intro acc1 acc2; simp
  | cons fc rest ih =>
      intro acc1 acc2
      rw [List.foldl_cons]
      by_cases hlen : 0 < (scanContent fc.1 fc.2).length
      · have hstep : aggStep (acc1, acc2) fc =
            (acc1 ++ scanContent fc.1 fc.2, mapSet acc2 fc.1 (scanContent fc.1 fc.2)) := by
          simp [aggStep, hlen]
        rw [hstep, ih, List.flatMap_cons, List.append_assoc]
      · have hnil : scanContent fc.1 fc.2 = [] :=
          List.length_eq_zero.mp (Nat.le_zero.mp (Nat.not_lt.mp hlen))
        have hstep : aggStep (acc1, acc2) fc = (acc1, acc2) := by
          simp [aggStep, hnil]
        rw [hstep, ih, List.flatMap_cons, hnil, List.nil_append]

theorem mapSet_not_mem (acc2 : List (List String × List Detection)) (k : List String)
    (v : List Detection) (hk : ∀ e ∈ acc2, e.1 ≠ k) :
    mapSet acc2 k v = acc2 ++ [(k, v)] := by
  unfold mapSet
  rw [if_neg]
  intro hcontra
  obtain ⟨e, hmem, hbeq⟩ := List.any_eq_true.mp hcontra
  exact hk e hmem (by simpa using hbeq)

theorem foldl_agg_byFile :
    ∀ (files : List (List String × Content)) (acc1 : List Detection)
      (acc2 : List (List String × List Detection)),
      (∀ k ∈ acc2.map Prod.fst, ¬ k ∈ files.map Prod.fst) →
      (files.map Prod.fst).Nodup →
      (files.foldl aggStep (acc1, acc2)).2 =
        acc2 ++ (files.map (fun fc => (fc.1, scanContent fc.1 fc.2))).filter
          (fun x => !x.2.isEmpty) := by
  intro files
  induction files with
  | nil => intro acc1 acc2 _ _; simp
  | cons fc rest ih =>
      intro acc1 acc2 hdisj hnd
      rw [List.foldl_cons]
      have hndc : ¬ fc.1 ∈ rest.map Prod.fst ∧ (rest.map Prod.fst).Nodup :=
        List.nodup_cons.mp (by simpa using hnd)
      by_cases hlen : 0 < (scanContent fc.1 fc.2).length
      · have hkey : ∀ e ∈ acc2, e.1 ≠ fc.1 := by
          intro e he hcontra
          have hmem := hdisj e.1 (List.mem_map.mpr ⟨e, he, rfl⟩)
          apply hmem
          rw [hcontra]
          simp
        have hstep : aggStep (acc1, acc2) fc =
            (acc1 ++ scanContent fc.1 fc.2, acc2 ++ [(fc.1, scanContent fc.1 fc.2)]) := by
          simp [aggStep, hlen, mapSet_not_mem _ _ _ hkey]
        have hdisj' : ∀ k ∈ (acc2 ++ [(fc.1, scanContent fc.1 fc.2)]).map Prod.fst,
            ¬ k ∈ rest.map Prod.fst := by
          intro k hkmem
          rw [List.map_append] at hkmem
          rcases List.mem_append.mp hkmem with hk1 | hk2
          · intro hcontra
            exact hdisj k hk1 (by simp [hcontra])
          · have hk2' : k = fc.1 := by simpa using hk2
            rw [hk2']
            exact hndc.1
        have hne : (!(scanContent fc.1 fc.2).isEmpty) = true := by
          rcases hsc : scanContent fc.1 fc.2 with _ | _
          · rw [hsc] at hlen; simp at hlen
          · simp
        rw [hstep, ih _ _ hdisj' hndc.2, List.map_cons, List.filter_cons, if_pos hne,
          List.append_assoc]
        rfl
      · have hnil : scanContent fc.1 fc.2 = [] :=
          List.length_eq_zero.mp (Nat.le_zero.mp (Nat.not_lt.mp hlen))
        have hstep : aggStep (acc1, acc2) fc = (acc1, acc2) := by
          simp [aggStep, hnil]
        have hdisj' : ∀ k ∈ acc2.map Prod.fst, ¬ k ∈ rest.map Prod.fst := by
          intro k hkmem hcontra
          exact hdisj k hkmem (by simp [hcontra])
        rw [hstep, ih _ _ hdisj' hndc.2, List.map_cons, List.filter_cons]
        rw [hnil]
        simp

theorem flatten_byFile_values :
    ∀ (files : List (List String × Content)),
      (((files.map (fun fc => (fc.1, scanContent fc.1 fc.2))).filter
        (fun x => !x.2.isEmpty)).map Prod.snd).flatten =
      files.flatMap (fun fc => scanContent fc.1 fc.2) := by
  intro files
  induction files with
  | nil => rfl
  | cons fc rest ih =>
      rw [List.map_cons, List.filter_cons, List.flatMap_cons]
      by_cases h : (scanContent fc.1 fc.2).isEmpty = true
      · have hnil : scanContent fc.1 fc.2 = [] := List.isEmpty_iff.mp h
        rw [if_neg (by simp [h]), ih, hnil, List.nil_append]
      · rw [if_pos (by simp [h]), List.map_cons, List.flatten_cons, ih]

theorem severity_filter_partition (l : List Detection) :
    (l.filter (fun d => d.severity == Severity.high)).length +
    (l.filter (fun d => d.severity == Severity.medium)).length +
    (l.filter (fun d => d.severity == Severity.low)).length = l.length := by
  induction l with
  | nil => rfl
  | cons d ds ih =>
      cases hsev : d.severity <;>
        simp only [List.filter_cons, hsev, List.length_cons] <;>
        simp <;> omega

theorem scanContent_rule_fields :
    ∀ (path : List String) (content : Content) (d : Detection),
      d ∈ scanContent path content →
      ∃ pat, pat ∈ FLAKY_PATTERNS ∧ d.pattern = pat.name ∧ d.severity = pat.severity := by
  intro path content d hd
  simp only [scanContent, List.mem_flatMap] at hd
  obtain ⟨pat, hpat, hmem⟩ := hd
  exact ⟨pat, hpat, scanPatternRule_fields hmem⟩

theorem severityGroup_scanDirectory (root : Option EntryList) (s : Severity) :
    severityGroup (scanDirectory root) s =
      (scanDirectory root).detections.filter (fun d => d.severity == s) := by
  cases s <;> rfl

/-- C2: for every scan (over a filesystem whose discovered file paths are
distinct, as they are on a real filesystem), the ScanResult's bySeverity
lists partition the flat detection list with no overlap and no omission,
the byFile groups regrouped reconstruct the flat detection list, and every
Detection's severity equals the severity of its producing rule. -/
theorem scanResult_partitions :
    ∀ root : Option EntryList, ((findTestFiles root).map Prod.fst).Nodup → C2Prop root := by
  intro root hnd
  have hdets : (scanDirectory root).detections =
      (findTestFiles root).flatMap (fun fc => scanContent fc.1 fc.2) := by
    show ((findTestFiles root).foldl aggStep ([], [])).1 = _
    rw [foldl_agg_detections]
    exact List.nil_append _
  have hbf : (scanDirectory root).byFile =
      ((findTestFiles root).map (fun fc => (fc.1, scanContent fc.1 fc.2))).filter
        (fun x => !x.2.isEmpty) := by
    show ((findTestFiles root).foldl aggStep ([], [])).2 = _
    rw [foldl_agg_byFile _ [] [] (by simp) hnd]
    exact List.nil_append _
  refine ⟨?_, ?_, ?_, ?_⟩
  · exact severity_filter_partition (scanDirectory root).detections
  · intro d hd
    constructor
    · rw [severityGroup_scanDirectory]
      exact List.count_filter (by simp)
    · intro s hs
      rw [severityGroup_scanDirectory]
      apply List.count_eq_zero.mpr
      intro hmem
      have hsev := (List.mem_filter.mp hmem).2
      simp only [beq_iff_eq] at hsev
      exact hs hsev.symm
  · rw [hbf, hdets]
    exact flatten_byFile_values _
  · intro d hd
    rw [hdets] at hd
    simp only [List.mem_flatMap] at hd
    obtain ⟨fc, _, hdc⟩ := hd
    exact scanContent_rule_fields fc.1 fc.2 d hdc

/-- Witness for C2: a scan over a tree with one test file producing one
high- and one low-severity detection. -/
theorem scanResult_partitions_witness :
    C2Prop (some (.cons (.file "w.test.ts" ("ttlSeconds: 1\nMath.random()".toList)) .nil)) :=
  scanResult_partitions
    (some (.cons (.file "w.test.ts" ("ttlSeconds: 1\nMath.random()".toList)) .nil)) (by decide)

end FlakyDetect
